import Mathlib

/-
Shallow embedding of script/generate_multigoal_dataset.py.

Points are indexed by natural numbers into the sampled point cloud nav_pts;
distances are modelled as exact rationals.  Values produced by the simulator
oracle sim.geodesic_distance are Python floats, which may be non-finite, so
they are modelled by FVal below together with IEEE-754 comparison semantics
(every comparison involving NaN is false).  The draws of Python's global
random module (random.choice, random.random) are modelled as explicit input
streams: the script never calls random.seed, so these streams are not a
function of the --seed argument (only sim.seed(args.seed) is called).
-/

namespace MultigoalGen

/-- A 3D position, as sampled by sim.sample_navigable_point. -/
abbrev Point : Type := ℚ × ℚ × ℚ

/-- Result of a Python float computation: a finite value, plus or minus
infinity, or NaN.  sim.geodesic_distance may return any of these according
to the spec of the simulator interface. -/
inductive FVal : Type
  | finite (q : ℚ)
  | posInf
  | negInf
  | nan
deriving DecidableEq

/-- IEEE-754 strict less-than on float results: any comparison with NaN
is false; -inf is below every non-NaN value; +inf is above every
non-NaN value. -/
def flt : FVal → FVal → Bool
  | FVal.finite a, FVal.finite b => decide (a < b)
  | FVal.finite _, FVal.posInf => true
  | FVal.negInf, FVal.finite _ => true
  | FVal.negInf, FVal.posInf => true
  | _, _ => false

/-- IEEE-754 less-or-equal on float results: any comparison with NaN is
false. -/
def fle : FVal → FVal → Bool
  | FVal.nan, _ => false
  | _, FVal.nan => false
  | FVal.negInf, _ => true
  | _, FVal.negInf => false
  | FVal.posInf, FVal.posInf => true
  | FVal.finite _, FVal.posInf => true
  | FVal.posInf, FVal.finite _ => false
  | FVal.finite a, FVal.finite b => decide (a ≤ b)

/-- Division of a float result by a nonzero rational (in the script the
divisor euc_d is a pre-filtered Euclidean distance, which is at least
0.8 * min_d > 0). -/
def fdiv : FVal → ℚ → FVal
  | FVal.finite a, e => FVal.finite (a / e)
  | FVal.posInf, e => if 0 < e then FVal.posInf else if e < 0 then FVal.negInf else FVal.nan
  | FVal.negInf, e => if 0 < e then FVal.negInf else if e < 0 then FVal.posInf else FVal.nan
  | FVal.nan, _ => FVal.nan

/-- Addition of float results (tot_d += d in the episode loop): NaN
propagates, infinities absorb finite values, opposite infinities give NaN. -/
def fadd : FVal → FVal → FVal
  | FVal.nan, _ => FVal.nan
  | _, FVal.nan => FVal.nan
  | FVal.posInf, FVal.negInf => FVal.nan
  | FVal.negInf, FVal.posInf => FVal.nan
  | FVal.posInf, _ => FVal.posInf
  | _, FVal.posInf => FVal.posInf
  | FVal.negInf, _ => FVal.negInf
  | _, FVal.negInf => FVal.negInf
  | FVal.finite a, FVal.finite b => FVal.finite (a + b)

/-- DIFFICULTIES: the four ordered difficulty labels. -/
def DIFFICULTIES : List String := ["very easy", "easy", "medium", "hard"]

/-- DIFFICULTY_BOUNDS: the five geodesic-distance boundary values; bucket k
has bounds (BOUNDS[k], BOUNDS[k+1]). -/
def DIFFICULTY_BOUNDS : List ℚ := [1, 3, 7, 13, 20]

/-- MIN_DIST_RATIO = 1.1: the minimal accepted ratio of geodesic to
Euclidean distance of a leg. -/
def minDistRatio : ℚ := 11 / 10

/-- Python's int() conversion on a real number: truncation toward zero. -/
def pyInt (q : ℚ) : ℤ := if q < 0 then ⌈q⌉ else ⌊q⌋

/-- Four-way zip, as Python's zip over four sequences (truncating to the
shortest). -/
def zip4 {α β γ δ : Type} : List α → List β → List γ → List δ → List (α × β × γ × δ)
  | a :: as, b :: bs, c :: cs, d :: ds => (a, b, c, d) :: zip4 as bs cs ds
  | _, _, _, _ => []

/-- parse_difficulty_ratios: checks the ratio list (exactly 4 entries, none
negative; otherwise ValueError), then builds the ordered bucket list
(label, episode count, min_d, max_d) with count = int(r * n_episodes / tot).
When all four ratios are zero, tot = 0.0 and the division r * n / tot
raises ZeroDivisionError in Python (float division by zero), modelled as the
second error branch. -/
def parse_difficulty_ratios (ratios : List ℚ) (n_episodes : ℕ) :
    Except String (List (String × ℕ × ℚ × ℚ)) :=
  if (ratios.any fun r => decide (r < 0)) || (ratios.length != 4) then
    Except.error "Invalid difficulty ratios argument"
  else if ratios.sum = 0 then
    Except.error "float division by zero"
  else
    Except.ok ((zip4 DIFFICULTIES ratios DIFFICULTY_BOUNDS.dropLast (DIFFICULTY_BOUNDS.drop 1)).map
      fun x => (x.1, (pyInt (x.2.1 * n_episodes / ratios.sum)).toNat, x.2.2.1, x.2.2.2))

/-- main's sequencing around the ratio parser: parse_difficulty_ratios runs
before the simulator is created, so a parse failure propagates before any
simulator work; simWork stands for everything from make_sim onward,
consuming the parsed bucket list. -/
def mainModel {α : Type} (ratios : List ℚ) (n_episodes : ℕ)
    (simWork : List (String × ℕ × ℚ × ℚ) → α) : Except String α :=
  match parse_difficulty_ratios ratios n_episodes with
  | Except.error e => Except.error e
  | Except.ok ds => Except.ok (simWork ds)

/-- pairs = [(i, j) for i in range(n_pts - 1) for j in range(i + 1, n_pts)]:
all unordered index pairs into the point cloud, in row-major order. -/
def pairsList (n_pts : ℕ) : List (ℕ × ℕ) :=
  (List.range (n_pts - 1)).flatMap fun i =>
    (List.range' (i + 1) (n_pts - (i + 1))).map fun j => (i, j)

/-- euc_dists = pdist(nav_pts): scipy returns the condensed pairwise
Euclidean distances in exactly the order of pairsList, one per pair.  The
metric evaluation on the sampled points is abstracted as the oracle euc. -/
def euc_dists (n_pts : ℕ) (euc : ℕ × ℕ → ℚ) : List ℚ :=
  (pairsList n_pts).map euc

/-- Per-bucket pre-filter: candidates = [(p, euc_d) for p, euc_d in
zip(pairs, euc_dists) if 0.8 * min_d <= euc_d <= 1.2 * max_d]. -/
def candidatesFor (n_pts : ℕ) (euc : ℕ × ℕ → ℚ) (min_d max_d : ℚ) :
    List ((ℕ × ℕ) × ℚ) :=
  ((pairsList n_pts).zip (euc_dists n_pts euc)).filter
    fun pe => decide (8 / 10 * min_d ≤ pe.2) && decide (pe.2 ≤ 12 / 10 * max_d)

/-- The retry-loop guard, literally the while condition (with d already
drawn, so the d-is-None disjunct is gone):
d < min_d or d > max_d or d / euc_d < MIN_DIST_RATIO,
under Python float comparison semantics. -/
def rejects (d : FVal) (euc_d min_d max_d : ℚ) : Bool :=
  flt d (FVal.finite min_d) || flt (FVal.finite max_d) d ||
    flt (fdiv d euc_d) (FVal.finite minDistRatio)

/-- First-leg rejection-sampling loop.  Each iteration consumes one draw r
from the global random module (random.choice(candidates) is modelled as
candidates[r % len(candidates)]), queries the geodesic-distance oracle on
the drawn pair, and loops while the guard rejects.  Returns the accepted
(pair, euc_d, d) and the unconsumed draws; none models both draw-stream
exhaustion and random.choice on an empty candidate list (IndexError). -/
def retryLoop (cands : List ((ℕ × ℕ) × ℚ)) (geo : ℕ → ℕ → FVal)
    (min_d max_d : ℚ) : List ℕ → Option (((ℕ × ℕ) × ℚ × FVal) × List ℕ)
  | [] => none
  | r :: rs =>
    match cands.get? (r % cands.length) with
    | none => none
    | some ((i, j), euc_d) =>
      let d := geo i j
      if rejects d euc_d min_d max_d then retryLoop cands geo min_d max_d rs
      else some (((i, j), euc_d, d), rs)

/-- nxt_candidates: destinations reachable from the previous leg's
destination index last, in either stored orientation of the unordered
pairs, each with its Euclidean distance. -/
def nxtCandidates (cands : List ((ℕ × ℕ) × ℚ)) (last : ℕ) : List (ℕ × ℚ) :=
  ((cands.filter fun pe => pe.1.1 == last).map fun pe => (pe.1.2, pe.2)) ++
    ((cands.filter fun pe => pe.1.2 == last).map fun pe => (pe.1.1, pe.2))

/-- Chained-leg rejection-sampling loop: like retryLoop but drawing a
destination index from nxt (the source is nav_pts[last]). -/
def chainRetry (nxt : List (ℕ × ℚ)) (geo : ℕ → ℕ → FVal) (last : ℕ)
    (min_d max_d : ℚ) : List ℕ → Option ((ℕ × ℚ × FVal) × List ℕ)
  | [] => none
  | r :: rs =>
    match nxt.get? (r % nxt.length) with
    | none => none
    | some (j, euc_d) =>
      let d := geo last j
      if rejects d euc_d min_d max_d then chainRetry nxt geo last min_d max_d rs
      else some ((j, euc_d, d), rs)

/-- State of the per-episode loop variables after the first leg and after
each chained-leg iteration: src and last are indices into nav_pts (src is
the index whose point the variable src currently holds), dests the goal
indices appended so far, totd the accumulated tot_d, legs the (source,
destination) index pairs of the accepted legs, in order. -/
structure EpState : Type where
  src : ℕ
  last : ℕ
  dests : List ℕ
  totd : FVal
  legs : List (ℕ × ℕ)
deriving DecidableEq

/-- The chained-goal loop: for _ in range(n_goals_per_ep - 1), one
chainRetry per iteration; each accepted destination j updates
src = nav_pts[last], last = j, destinations.append(dst), tot_d += d. -/
def chainSteps (cands : List ((ℕ × ℕ) × ℚ)) (geo : ℕ → ℕ → FVal)
    (min_d max_d : ℚ) : ℕ → EpState → List ℕ → Option (EpState × List ℕ)
  | 0, st, draws => some (st, draws)
  | n + 1, st, draws =>
    match chainRetry (nxtCandidates cands st.last) geo st.last min_d max_d draws with
    | none => none
    | some ((j, _euc_d, d), rest) =>
      chainSteps cands geo min_d max_d n
        ⟨st.last, j, st.dests ++ [j], fadd st.totd d, st.legs ++ [(st.last, j)]⟩ rest

/-- One episode of the per-bucket loop: the first-leg loop establishes
last = j, destinations = [dst], tot_d = d, then n_goals_per_ep - 1 chained
iterations run (Python's range(m - 1) is empty for m ≤ 1, matching
truncated subtraction on ℕ). -/
def genEpisode (cands : List ((ℕ × ℕ) × ℚ)) (geo : ℕ → ℕ → FVal)
    (min_d max_d : ℚ) (n_goals_per_ep : ℕ) (draws : List ℕ) :
    Option (EpState × List ℕ) :=
  match retryLoop cands geo min_d max_d draws with
  | none => none
  | some (((i, j), _euc_d, d), rest) =>
    chainSteps cands geo min_d max_d (n_goals_per_ep - 1) ⟨i, j, [j], d, [(i, j)]⟩ rest

/-- A generation run as a function of the seed and of the global random
module's draw stream.  simData maps the seed to the seed-determined
simulator-side data (the pre-filtered candidate list built from the seeded
simulator's sampled points, and the geodesic-distance oracle); globalDraws
models Python's global random module, which main never seeds (only
sim.seed(args.seed) is called), so it is an input independent of seed. -/
def runWithSeed (simData : ℕ → List ((ℕ × ℕ) × ℚ) × (ℕ → ℕ → FVal))
    (seed : ℕ) (globalDraws : List ℕ) (min_d max_d : ℚ) (n_goals_per_ep : ℕ) :
    Option (EpState × List ℕ) :=
  genEpisode (simData seed).1 (simData seed).2 min_d max_d n_goals_per_ep globalDraws

/-- NavigationGoal(position=dst, radius=success_dist). -/
structure NavigationGoal : Type where
  position : Point
  radius : ℚ
deriving DecidableEq

/-- One component of the start-rotation quaternion [0, sin(a/2), 0,
cos(a/2)] with a = 2 * pi * u, where u is the random.random() draw taken
from Python's global random module.  The transcendental components are
kept symbolic as functions of u. -/
inductive QComp : Type
  | qzero
  | sinHalfAngle (u : ℚ)
  | cosHalfAngle (u : ℚ)
deriving DecidableEq

/-- The yaw-only quaternion q = [0, sin(a/2), 0, cos(a/2)], a = 2 * pi * u. -/
def yaw_quat (u : ℚ) : List QComp :=
  [QComp.qzero, QComp.sinHalfAngle u, QComp.qzero, QComp.cosHalfAngle u]

/-- NavigationEpisode(...): the record constructed inside make_episode.
The info dict is flattened into its two keys. -/
structure NavigationEpisode : Type where
  episode_id : String
  scene_id : String
  start_position : Point
  start_rotation : List QComp
  goals : List NavigationGoal
  info_difficulty : String
  info_geodesic_distance : FVal
deriving DecidableEq

/-- The NavigationEpisode value that make_episode builds (and that the
spec says is appended to the dataset): id, scene, start position, random
yaw-only rotation, goals from the destination list, difficulty label and
accumulated geodesic distance. -/
def make_episode_record (ep_id scene_id : String) (src : Point)
    (destinations : List Point) (success_dist : ℚ) (difficulty : String)
    (geo_dist : FVal) (u : ℚ) : NavigationEpisode :=
  ⟨ep_id, scene_id, src, yaw_quat u,
    destinations.map fun dst => ⟨dst, success_dist⟩, difficulty, geo_dist⟩

/-- make_episode as written in the script: it computes the quaternion, the
goal list and the NavigationEpisode record, but its body has no return
statement, so the Python function returns None. -/
def make_episode (ep_id scene_id : String) (src : Point)
    (destinations : List Point) (success_dist : ℚ) (difficulty : String)
    (geo_dist : FVal) (u : ℚ) : Option NavigationEpisode :=
  let q := yaw_quat u
  let goals := destinations.map fun dst : Point => (⟨dst, success_dist⟩ : NavigationGoal)
  let episode : NavigationEpisode :=
    ⟨ep_id, scene_id, src, q, goals, difficulty, geo_dist⟩
  none

/-- dataset.episodes.append(episode) with episode the value returned by
make_episode. -/
def append_generated_episode (episodes : List (Option NavigationEpisode))
    (ep_id scene_id : String) (src : Point) (destinations : List Point)
    (success_dist : ℚ) (difficulty : String) (geo_dist : FVal) (u : ℚ) :
    List (Option NavigationEpisode) :=
  episodes ++ [make_episode ep_id scene_id src destinations success_dist difficulty geo_dist u]

/-- A concrete point. -/
def pt0 : Point := (0, 0, 0)

/-- A concrete point. -/
def pt1 : Point := (1, 0, 0)

/-- Two candidate pairs with Euclidean distance 1, used to exercise the
retry loop on non-finite geodesic results. -/
def candsTwo : List ((ℕ × ℕ) × ℚ) := [((0, 1), 1), ((2, 3), 1)]

/-- Geodesic oracle returning +infinity on the pair (0, 1) (unreachable)
and 2.0 elsewhere. -/
def geoWithInf : ℕ → ℕ → FVal :=
  fun i _ => if i = 0 then FVal.posInf else FVal.finite 2

/-- Geodesic oracle returning a negative sentinel on the pair (0, 1) and
2.0 elsewhere. -/
def geoWithNeg : ℕ → ℕ → FVal :=
  fun i _ => if i = 0 then FVal.finite (-5) else FVal.finite 2

/-- Geodesic oracle returning NaN on the pair (0, 1) and 2.0 elsewhere. -/
def geoWithNan : ℕ → ℕ → FVal :=
  fun i _ => if i = 0 then FVal.nan else FVal.finite 2

/-- Seed-determined simulator data used to probe determinism: every seed
yields the same two candidate pairs and the same geodesic oracle, so any
output difference between two runs with the same seed comes from the
global random module's draws alone. -/
def simDataTwoPairs : ℕ → List ((ℕ × ℕ) × ℚ) × (ℕ → ℕ → FVal) :=
  fun _ => ([((0, 1), 1), ((0, 2), 1)], fun _ _ => FVal.finite 2)

/-- A leg (source, destination) stems from the candidate list in either
stored orientation of the unordered pair. -/
def FromCands (cands : List ((ℕ × ℕ) × ℚ)) (leg : ℕ × ℕ) : Prop :=
  ∃ e, (leg, e) ∈ cands ∨ ((leg.2, leg.1), e) ∈ cands

/-- Invariant of the per-episode loop state: the goal indices are the
destinations of the legs in order, the src and last variables hold the
final leg's endpoints, consecutive legs share an endpoint, and every
chained leg (all but the first) comes from the candidate list. -/
def GoodState (cands : List ((ℕ × ℕ) × ℚ)) (st : EpState) : Prop :=
  st.dests = st.legs.map Prod.snd ∧
  st.legs.getLast? = some (st.src, st.last) ∧
  List.Chain' (fun a b : ℕ × ℕ => b.1 = a.2) st.legs ∧
  ∀ leg ∈ st.legs.tail, FromCands cands leg

/-
Helper lemmas.
-/

lemma accept_char (d : FVal) (e mn mx : ℚ) (h : rejects d e mn mx = false) :
    d = FVal.nan ∨ ∃ q, d = FVal.finite q ∧ mn ≤ q ∧ q ≤ mx ∧ minDistRatio ≤ q / e := by
  cases d with
  | nan => exact Or.inl rfl
  | posInf => simp [rejects, flt, fdiv] at h
  | negInf => simp [rejects, flt, fdiv] at h
  | finite q =>
    simp only [rejects, flt, fdiv, Bool.or_eq_false_iff, decide_eq_false_iff_not, not_lt] at h
    exact Or.inr ⟨q, rfl, h.1.1, h.1.2, h.2⟩

lemma retryLoop_spec (cands : List ((ℕ × ℕ) × ℚ)) (geo : ℕ → ℕ → FVal) (mn mx : ℚ) :
    ∀ (ds : List ℕ) (p : ℕ × ℕ) (e : ℚ) (d : FVal) (rest : List ℕ),
      retryLoop cands geo mn mx ds = some ((p, e, d), rest) →
      (p, e) ∈ cands ∧ d = geo p.1 p.2 ∧ rejects d e mn mx = false := by
  intro ds
  induction ds with
  | nil => intro p e d rest h; simp [retryLoop] at h
  | cons r rs ih =>
    intro p e d rest h
    rw [retryLoop] at h
    cases hg : cands.get? (r % cands.length) with
    | none => rw [hg] at h; exact absurd h (by simp)
    | some pe =>
      obtain ⟨⟨i, j⟩, euc⟩ := pe
      rw [hg] at h
      simp only at h
      by_cases hr : rejects (geo i j) euc mn mx = true
      · rw [if_pos hr] at h
        exact ih p e d rest h
      · rw [if_neg hr] at h
        simp only [Option.some.injEq, Prod.mk.injEq] at h
        obtain ⟨⟨hp, he, hd⟩, -⟩ := h
        subst hp; subst he; subst hd
        exact ⟨List.get?_mem hg, rfl, Bool.eq_false_iff.mpr hr⟩

lemma chainRetry_spec (nxt : List (ℕ × ℚ)) (geo : ℕ → ℕ → FVal) (last : ℕ) (mn mx : ℚ) :
    ∀ (ds : List ℕ) (j : ℕ) (e : ℚ) (d : FVal) (rest : List ℕ),
      chainRetry nxt geo last mn mx ds = some ((j, e, d), rest) →
      (j, e) ∈ nxt ∧ d = geo last j ∧ rejects d e mn mx = false := by
  intro ds
  induction ds with
  | nil => intro j e d rest h; simp [chainRetry] at h
  | cons r rs ih =>
    intro j e d rest h
    rw [chainRetry] at h
    cases hg : nxt.get? (r % nxt.length) with
    | none => rw [hg] at h; exact absurd h (by simp)
    | some je =>
      obtain ⟨j', euc⟩ := je
      rw [hg] at h
      simp only at h
      by_cases hr : rejects (geo last j') euc mn mx = true
      · rw [if_pos hr] at h
        exact ih j e d rest h
      · rw [if_neg hr] at h
        simp only [Option.some.injEq, Prod.mk.injEq] at h
        obtain ⟨⟨hj, he, hd⟩, -⟩ := h
        subst hj; subst he; subst hd
        exact ⟨List.get?_mem hg, rfl, Bool.eq_false_iff.mpr hr⟩

lemma nxtCandidates_mem (cands : List ((ℕ × ℕ) × ℚ)) (last j : ℕ) (e : ℚ)
    (h : (j, e) ∈ nxtCandidates cands last) :
    ((last, j), e) ∈ cands ∨ ((j, last), e) ∈ cands := by
  simp only [nxtCandidates, List.mem_append, List.mem_map, List.mem_filter] at h
  rcases h with ⟨⟨⟨a, b⟩, e'⟩, ⟨hm, hb⟩, heq⟩ | ⟨⟨⟨a, b⟩, e'⟩, ⟨hm, hb⟩, heq⟩
  · simp only [beq_iff_eq] at hb
    simp only [Prod.mk.injEq] at heq
    obtain ⟨hj, he⟩ := heq
    subst hb; subst hj; subst he
    exact Or.inl hm
  · simp only [beq_iff_eq] at hb
    simp only [Prod.mk.injEq] at heq
    obtain ⟨hj, he⟩ := heq
    subst hb; subst hj; subst he
    exact Or.inr hm

lemma goodState_step (cands : List ((ℕ × ℕ) × ℚ)) (st : EpState) (j : ℕ) (d : FVal)
    (hg : GoodState cands st) (hmem : FromCands cands (st.last, j)) :
    GoodState cands
      ⟨st.last, j, st.dests ++ [j], fadd st.totd d, st.legs ++ [(st.last, j)]⟩ := by
  obtain ⟨hdests, hlast, hchain, htail⟩ := hg
  have hne : st.legs ≠ [] := by
    intro hnil
    rw [hnil] at hlast
    simp [List.getLast?] at hlast
  refine ⟨?_, ?_, ?_, ?_⟩
  · simp only [List.map_append, List.map_cons, List.map_nil]
    rw [hdests]
  · exact List.getLast?_concat _
  · rw [List.chain'_append]
    refine ⟨hchain, List.chain'_singleton _, ?_⟩
    intro x hx y hy
    rw [hlast] at hx
    simp only [Option.mem_def, Option.some.injEq] at hx
    simp only [List.head?_cons, Option.mem_def, Option.some.injEq] at hy
    subst hx; subst hy
    rfl
  · intro leg hleg
    have htl : (st.legs ++ [(st.last, j)]).tail = st.legs.tail ++ [(st.last, j)] := by
      cases h : st.legs with
      | nil => exact absurd h hne
      | cons a l => simp
    simp only at hleg
    rw [htl] at hleg
    rcases List.mem_append.mp hleg with hin | hin
    · exact htail leg hin
    · simp only [List.mem_singleton] at hin
      subst hin
      exact hmem

lemma chainSteps_good (cands : List ((ℕ × ℕ) × ℚ)) (geo : ℕ → ℕ → FVal) (mn mx : ℚ) :
    ∀ (n : ℕ) (st : EpState) (draws : List ℕ) (st' : EpState) (rest : List ℕ),
      GoodState cands st →
      chainSteps cands geo mn mx n st draws = some (st', rest) →
      GoodState cands st' ∧ st'.legs.length = st.legs.length + n ∧
        st'.dests.length = st.dests.length + n := by
  intro n
  induction n with
  | zero =>
    intro st draws st' rest hg h
    simp only [chainSteps, Option.some.injEq, Prod.mk.injEq] at h
    obtain ⟨rfl, -⟩ := h
    exact ⟨hg, rfl, rfl⟩
  | succ n ih =>
    intro st draws st' rest hg h
    rw [chainSteps] at h
    cases hc : chainRetry (nxtCandidates cands st.last) geo st.last mn mx draws with
    | none => rw [hc] at h; exact absurd h (by simp)
    | some x =>
      obtain ⟨⟨j, euc, d⟩, rest₁⟩ := x
      rw [hc] at h
      simp only at h
      obtain ⟨hmem, -, -⟩ := chainRetry_spec _ geo st.last mn mx draws j euc d rest₁ hc
      have hfc : FromCands cands (st.last, j) := by
        rcases nxtCandidates_mem cands st.last j euc hmem with hl | hr
        · exact ⟨euc, Or.inl hl⟩
        · exact ⟨euc, Or.inr hr⟩
      have hg' := goodState_step cands st j d hg hfc
      obtain ⟨hgood, hlen, hdlen⟩ := ih _ rest₁ st' rest hg' h
      refine ⟨hgood, ?_, ?_⟩
      · simp only [List.length_append, List.length_cons, List.length_nil] at hlen
        omega
      · simp only [List.length_append, List.length_cons, List.length_nil] at hdlen
        omega

lemma genEpisode_good (cands : List ((ℕ × ℕ) × ℚ)) (geo : ℕ → ℕ → FVal)
    (mn mx : ℚ) (m : ℕ) (draws : List ℕ) (st : EpState) (rest : List ℕ)
    (h : genEpisode cands geo mn mx m draws = some (st, rest)) :
    GoodState cands st ∧ st.legs.length = 1 + (m - 1) ∧ st.dests.length = 1 + (m - 1) := by
  rw [genEpisode] at h
  cases hr : retryLoop cands geo mn mx draws with
  | none => rw [hr] at h; exact absurd h (by simp)
  | some x =>
    obtain ⟨⟨⟨i, j⟩, euc, d⟩, rest₁⟩ := x
    rw [hr] at h
    simp only at h
    have hg0 : GoodState cands (⟨i, j, [j], d, [(i, j)]⟩ : EpState) := by
      refine ⟨rfl, rfl, List.chain'_singleton _, ?_⟩
      intro leg hleg
      simp at hleg
    obtain ⟨hgood, hlen, hdlen⟩ := chainSteps_good cands geo mn mx (m - 1) _ rest₁ st rest hg0 h
    simp only [List.length_cons, List.length_nil] at hlen hdlen
    exact ⟨hgood, by omega, by omega⟩

lemma retryLoop_consume (cands : List ((ℕ × ℕ) × ℚ)) (geo : ℕ → ℕ → FVal) (mn mx : ℚ) :
    ∀ (ds : List ℕ) (x : (ℕ × ℕ) × ℚ × FVal) (rest : List ℕ),
      retryLoop cands geo mn mx ds = some (x, rest) →
      ∃ pre, ds = pre ++ rest ∧
        ∀ ext, retryLoop cands geo mn mx (pre ++ ext) = some (x, ext) := by
  intro ds
  induction ds with
  | nil => intro x rest h; simp [retryLoop] at h
  | cons r rs ih =>
    intro x rest h
    rw [retryLoop] at h
    cases hg : cands.get? (r % cands.length) with
    | none => rw [hg] at h; exact absurd h (by simp)
    | some pe =>
      obtain ⟨⟨i, j⟩, euc⟩ := pe
      rw [hg] at h
      simp only at h
      by_cases hr : rejects (geo i j) euc mn mx = true
      · rw [if_pos hr] at h
        obtain ⟨pre, hpre, hext⟩ := ih x rest h
        refine ⟨r :: pre, by rw [List.cons_append, hpre], ?_⟩
        intro ext
        rw [List.cons_append, retryLoop, hg]
        simp only
        rw [if_pos hr]
        exact hext ext
      · rw [if_neg hr] at h
        simp only [Option.some.injEq, Prod.mk.injEq] at h
        obtain ⟨hx, hrest⟩ := h
        subst hrest
        refine ⟨[r], rfl, ?_⟩
        intro ext
        rw [List.cons_append, List.nil_append, retryLoop, hg]
        simp only
        rw [if_neg hr, hx]

lemma chainRetry_consume (nxt : List (ℕ × ℚ)) (geo : ℕ → ℕ → FVal) (last : ℕ) (mn mx : ℚ) :
    ∀ (ds : List ℕ) (x : ℕ × ℚ × FVal) (rest : List ℕ),
      chainRetry nxt geo last mn mx ds = some (x, rest) →
      ∃ pre, ds = pre ++ rest ∧
        ∀ ext, chainRetry nxt geo last mn mx (pre ++ ext) = some (x, ext) := by
  intro ds
  induction ds with
  | nil => intro x rest h; simp [chainRetry] at h
  | cons r rs ih =>
    intro x rest h
    rw [chainRetry] at h
    cases hg : nxt.get? (r % nxt.length) with
    | none => rw [hg] at h; exact absurd h (by simp)
    | some je =>
      obtain ⟨j, euc⟩ := je
      rw [hg] at h
      simp only at h
      by_cases hr : rejects (geo last j) euc mn mx = true
      · rw [if_pos hr] at h
        obtain ⟨pre, hpre, hext⟩ := ih x rest h
        refine ⟨r :: pre, by rw [List.cons_append, hpre], ?_⟩
        intro ext
        rw [List.cons_append, chainRetry, hg]
        simp only
        rw [if_pos hr]
        exact hext ext
      · rw [if_neg hr] at h
        simp only [Option.some.injEq, Prod.mk.injEq] at h
        obtain ⟨hx, hrest⟩ := h
        subst hrest
        refine ⟨[r], rfl, ?_⟩
        intro ext
        rw [List.cons_append, List.nil_append, chainRetry, hg]
        simp only
        rw [if_neg hr, hx]

lemma chainSteps_consume (cands : List ((ℕ × ℕ) × ℚ)) (geo : ℕ → ℕ → FVal) (mn mx : ℚ) :
    ∀ (n : ℕ) (st : EpState) (draws : List ℕ) (st' : EpState) (rest : List ℕ),
      chainSteps cands geo mn mx n st draws = some (st', rest) →
      ∃ pre, draws = pre ++ rest ∧
        ∀ ext, chainSteps cands geo mn mx n st (pre ++ ext) = some (st', ext) := by
  intro n
  induction n with
  | zero =>
    intro st draws st' rest h
    simp only [chainSteps, Option.some.injEq, Prod.mk.injEq] at h
    obtain ⟨rfl, rfl⟩ := h
    exact ⟨[], rfl, fun ext => by simp [chainSteps]⟩
  | succ n ih =>
    intro st draws st' rest h
    rw [chainSteps] at h
    cases hc : chainRetry (nxtCandidates cands st.last) geo st.last mn mx draws with
    | none => rw [hc] at h; exact absurd h (by simp)
    | some x =>
      obtain ⟨⟨j, euc, d⟩, rest₁⟩ := x
      rw [hc] at h
      simp only at h
      obtain ⟨pre₁, hpre₁, hext₁⟩ :=
        chainRetry_consume _ geo st.last mn mx draws (j, euc, d) rest₁ hc
      obtain ⟨pre₂, hpre₂, hext₂⟩ := ih _ rest₁ st' rest h
      refine ⟨pre₁ ++ pre₂, ?_, ?_⟩
      · rw [hpre₁, hpre₂, List.append_assoc]
      · intro ext
        rw [List.append_assoc, chainSteps, hext₁ (pre₂ ++ ext)]
        simp only
        exact hext₂ ext

lemma genEpisode_consume (cands : List ((ℕ × ℕ) × ℚ)) (geo : ℕ → ℕ → FVal)
    (mn mx : ℚ) (m : ℕ) (draws : List ℕ) (st : EpState) (rest : List ℕ)
    (h : genEpisode cands geo mn mx m draws = some (st, rest)) :
    ∃ pre, draws = pre ++ rest ∧
      ∀ ext, genEpisode cands geo mn mx m (pre ++ ext) = some (st, ext) := by
  rw [genEpisode] at h
  cases hr : retryLoop cands geo mn mx draws with
  | none => rw [hr] at h; exact absurd h (by simp)
  | some x =>
    obtain ⟨⟨⟨i, j⟩, euc, d⟩, rest₁⟩ := x
    rw [hr] at h
    simp only at h
    obtain ⟨pre₁, hpre₁, hext₁⟩ :=
      retryLoop_consume cands geo mn mx draws ((i, j), euc, d) rest₁ hr
    obtain ⟨pre₂, hpre₂, hext₂⟩ :=
      chainSteps_consume cands geo mn mx (m - 1) _ rest₁ st rest h
    refine ⟨pre₁ ++ pre₂, ?_, ?_⟩
    · rw [hpre₁, hpre₂, List.append_assoc]
    · intro ext
      rw [List.append_assoc, genEpisode, hext₁ (pre₂ ++ ext)]
      simp only
      exact hext₂ ext

lemma zip_self_map {α β : Type} (f : α → β) (l : List α) :
    l.zip (l.map f) = l.map fun a => (a, f a) := by
  induction l with
  | nil => rfl
  | cons a l ih => simp [ih]

lemma candidatesFor_mem (n : ℕ) (euc : ℕ × ℕ → ℚ) (mn mx : ℚ) (p : ℕ × ℕ) (e : ℚ) :
    (p, e) ∈ candidatesFor n euc mn mx ↔
      p ∈ pairsList n ∧ e = euc p ∧ 8 / 10 * mn ≤ e ∧ e ≤ 12 / 10 * mx := by
  unfold candidatesFor euc_dists
  rw [zip_self_map]
  simp only [List.mem_filter, List.mem_map, Bool.and_eq_true, decide_eq_true_eq]
  constructor
  · rintro ⟨⟨a, ha, heq⟩, hlo, hhi⟩
    simp only [Prod.mk.injEq] at heq
    obtain ⟨hp, he⟩ := heq
    subst hp
    subst he
    exact ⟨ha, rfl, hlo, hhi⟩
  · rintro ⟨hp, he, hlo, hhi⟩
    subst he
    exact ⟨⟨p, hp, rfl⟩, hlo, hhi⟩

lemma pyInt_of_nonneg (q : ℚ) (h : 0 ≤ q) : pyInt q = ⌊q⌋ := by
  rw [pyInt, if_neg (not_lt.mpr h)]

lemma length_four_cases {α : Type} (l : List α) (h : l.length = 4) :
    ∃ a b c d, l = [a, b, c, d] := by
  match l, h with
  | [a, b, c, d], _ => exact ⟨a, b, c, d, rfl⟩

lemma parse_guard_false (ratios : List ℚ) (h4 : ratios.length = 4)
    (hnn : ∀ r ∈ ratios, 0 ≤ r) :
    ((ratios.any fun r => decide (r < 0)) || (ratios.length != 4)) = false := by
  simp only [Bool.or_eq_false_iff, List.any_eq_false, bne_eq_false_iff_eq]
  refine ⟨fun r hr => ?_, h4⟩
  simp only [decide_eq_true_eq]
  exact not_lt.mpr (hnn r hr)

lemma parse_invalid_iff (ratios : List ℚ) (n : ℕ) :
    parse_difficulty_ratios ratios n = Except.error "Invalid difficulty ratios argument" ↔
      ratios.length ≠ 4 ∨ ∃ r ∈ ratios, r < 0 := by
  unfold parse_difficulty_ratios
  by_cases hg : ((ratios.any fun r => decide (r < 0)) || (ratios.length != 4)) = true
  · rw [if_pos hg]
    simp only [Bool.or_eq_true, List.any_eq_true, decide_eq_true_eq, bne_iff_ne, ne_eq] at hg
    constructor
    · intro _
      tauto
    · intro _
      rfl
  · rw [if_neg hg]
    simp only [Bool.or_eq_true, not_or, List.any_eq_true, decide_eq_true_eq, bne_iff_ne,
      ne_eq, not_not, not_exists] at hg
    obtain ⟨hno, h4⟩ := hg
    constructor
    · intro h
      by_cases hs : ratios.sum = 0
      · rw [if_pos hs] at h
        have hstr := Except.error.inj h
        exact absurd hstr (by decide)
      · rw [if_neg hs] at h
        exact absurd h (by simp)
    · intro h
      rcases h with hlen | ⟨r, hr, hneg⟩
      · exact absurd h4 hlen
      · exact absurd ⟨hr, hneg⟩ (hno r)

lemma parse_ok_iff (ratios : List ℚ) (n : ℕ) :
    (∃ l, parse_difficulty_ratios ratios n = Except.ok l) ↔
      ratios.length = 4 ∧ (∀ r ∈ ratios, 0 ≤ r) ∧ ratios.sum ≠ 0 := by
  unfold parse_difficulty_ratios
  by_cases hg : ((ratios.any fun r => decide (r < 0)) || (ratios.length != 4)) = true
  · rw [if_pos hg]
    simp only [Bool.or_eq_true, List.any_eq_true, decide_eq_true_eq, bne_iff_ne, ne_eq] at hg
    constructor
    · rintro ⟨l, hl⟩
      exact absurd hl (by simp)
    · rintro ⟨h4, hnn, -⟩
      rcases hg with ⟨r, hr, hneg⟩ | hlen
      · exact absurd hneg (not_lt.mpr (hnn r hr))
      · exact absurd h4 hlen
  · rw [if_neg hg]
    simp only [Bool.or_eq_true, not_or, List.any_eq_true, decide_eq_true_eq, bne_iff_ne,
      ne_eq, not_not, not_exists] at hg
    obtain ⟨hno, h4⟩ := hg
    by_cases hs : ratios.sum = 0
    · rw [if_pos hs]
      constructor
      · rintro ⟨l, hl⟩
        exact absurd hl (by simp)
      · rintro ⟨-, -, hne⟩
        exact absurd hs hne
    · rw [if_neg hs]
      constructor
      · intro _
        refine ⟨h4, fun r hr => ?_, hs⟩
        exact not_lt.mp fun hlt => hno r ⟨hr, hlt⟩
      · intro _
        exact ⟨_, rfl⟩

lemma parse_ok_eval (a b c d : ℚ) (n : ℕ)
    (hnn : ∀ r ∈ [a, b, c, d], (0 : ℚ) ≤ r) (hpos : 0 < ([a, b, c, d] : List ℚ).sum) :
    parse_difficulty_ratios [a, b, c, d] n = Except.ok
      [("very easy", (⌊a * n / ([a, b, c, d] : List ℚ).sum⌋).toNat, 1, 3),
       ("easy", (⌊b * n / ([a, b, c, d] : List ℚ).sum⌋).toNat, 3, 7),
       ("medium", (⌊c * n / ([a, b, c, d] : List ℚ).sum⌋).toNat, 7, 13),
       ("hard", (⌊d * n / ([a, b, c, d] : List ℚ).sum⌋).toNat, 13, 20)] := by
  have ha : (0 : ℚ) ≤ a := hnn a (by simp)
  have hb : (0 : ℚ) ≤ b := hnn b (by simp)
  have hc : (0 : ℚ) ≤ c := hnn c (by simp)
  have hd : (0 : ℚ) ≤ d := hnn d (by simp)
  have hn : (0 : ℚ) ≤ (n : ℚ) := Nat.cast_nonneg n
  unfold parse_difficulty_ratios
  rw [parse_guard_false [a, b, c, d] rfl hnn]
  rw [if_neg (by simp)]
  rw [if_neg (ne_of_gt hpos)]
  simp only [DIFFICULTIES, DIFFICULTY_BOUNDS, List.dropLast, List.drop, zip4,
    List.map_cons, List.map_nil]
  rw [pyInt_of_nonneg _ (div_nonneg (mul_nonneg ha hn) hpos.le),
    pyInt_of_nonneg _ (div_nonneg (mul_nonneg hb hn) hpos.le),
    pyInt_of_nonneg _ (div_nonneg (mul_nonneg hc hn) hpos.le),
    pyInt_of_nonneg _ (div_nonneg (mul_nonneg hd hn) hpos.le)]

/-
Claim theorems.
-/

/-- Claim C1: the spec says episode assembly produces the populated
episode record (sequential id, scene id, start position, yaw-only start
rotation, ordered goal list, difficulty label, accumulated geodesic
distance) and that this record is the value appended to the in-memory
episode list.  In the code, make_episode builds the record but its body
has no return statement, so it returns None: at a concrete completed
episode the value appended is none, while the populated record exists and
differs from none. -/
theorem C1_append_none :
    append_generated_episode [] "0" "citi.glb" pt0 [pt1] (1 / 5) "very easy"
        (FVal.finite 2) (1 / 2) = [none] ∧
    (some (make_episode_record "0" "citi.glb" pt0 [pt1] (1 / 5) "very easy"
        (FVal.finite 2) (1 / 2)) : Option NavigationEpisode) ≠ none :=
  ⟨rfl, Option.some_ne_none _⟩

/-- Claim C2 counterexample: two runs with the same seed (42) and
identical seed-determined simulator data, differing only in the state of
Python's global random module (which the script never seeds), produce
different episodes — the generated dataset is not a function of the seed
alone, refuting same seed implies same dataset. -/
theorem C2_counterexample :
    runWithSeed simDataTwoPairs 42 [0] 1 3 1 ≠ runWithSeed simDataTwoPairs 42 [1] 1 3 1 := by
  norm_num [runWithSeed, simDataTwoPairs, genEpisode, retryLoop, chainSteps, rejects,
    flt, fdiv, minDistRatio]

/-- Claim C2 amended: generation is deterministic in the seed-determined
simulator data together with the draws actually consumed from the global
random module: a successful run splits its global draw stream into a
consumed prefix and a remainder, and every run with the same seed whose
global stream starts with that same prefix yields the identical episode. -/
theorem C2_amended_thm (simData : ℕ → List ((ℕ × ℕ) × ℚ) × (ℕ → ℕ → FVal))
    (seed : ℕ) (ds : List ℕ) (mn mx : ℚ) (m : ℕ) (st : EpState) (rest : List ℕ)
    (h : runWithSeed simData seed ds mn mx m = some (st, rest)) :
    ∃ pre, ds = pre ++ rest ∧
      ∀ ext, runWithSeed simData seed (pre ++ ext) mn mx m = some (st, ext) :=
  genEpisode_consume (simData seed).1 (simData seed).2 mn mx m ds st rest h

/-- Witness for C2_amended_thm at a concrete run. -/
theorem C2_amended_witness :
    ∃ pre, ([0] : List ℕ) = pre ++ ([] : List ℕ) ∧
      ∀ ext, runWithSeed simDataTwoPairs 42 (pre ++ ext) 1 3 1
        = some (⟨0, 1, [1], FVal.finite 2, [(0, 1)]⟩, ext) :=
  C2_amended_thm simDataTwoPairs 42 [0] 1 3 1 ⟨0, 1, [1], FVal.finite 2, [(0, 1)]⟩ []
    (by norm_num [runWithSeed, simDataTwoPairs, genEpisode, retryLoop, chainSteps,
      rejects, flt, fdiv, minDistRatio])

/-- Claim C3 counterexample: with ratios (29, 21, 25, 25) and total 10,
the code computes the very-easy bucket target int(29 * 10 / 100) = 2,
whereas the claimed formula round(29 * 10 / 100) = round(2.9) = 3 — the
per-bucket counts are truncations, not roundings. -/
theorem C3_counterexample :
    (parse_difficulty_ratios [29, 21, 25, 25] 10).toOption.map (List.map fun x => x.2.1)
      = some [2, 2, 2, 2] ∧
    Int.toNat (round ((29 : ℚ) * 10 / (29 + 21 + 25 + 25))) = 3 := by
  constructor
  · norm_num [parse_difficulty_ratios, pyInt, zip4, DIFFICULTIES, DIFFICULTY_BOUNDS,
      Except.toOption]
    decide
  · rw [round_eq]
    norm_num
    decide

/-- Claim C3 amended: for every valid difficulty-ratio list (exactly 4
non-negative entries with positive sum) and total episode count, the
per-bucket target equals the truncation int(ratio_i * total / sum) — the
floor, for these non-negative values — for each of the 4 ordered buckets. -/
theorem C3_amended_thm (ratios : List ℚ) (n : ℕ)
    (h4 : ratios.length = 4) (hnn : ∀ r ∈ ratios, 0 ≤ r) (hpos : 0 < ratios.sum) :
    (parse_difficulty_ratios ratios n).toOption.map (List.map fun x => x.2.1)
      = some (ratios.map fun r => (⌊r * n / ratios.sum⌋).toNat) := by
  obtain ⟨a, b, c, d, rfl⟩ := length_four_cases ratios h4
  rw [parse_ok_eval a b c d n hnn hpos]
  simp [Except.toOption]

/-- Witness for C3_amended_thm at the script defaults (ratios 50, 15, 20,
15; 300 episodes). -/
theorem C3_witness :
    (parse_difficulty_ratios [50, 15, 20, 15] 300).toOption.map (List.map fun x => x.2.1)
      = some (([50, 15, 20, 15] : List ℚ).map fun r =>
          (⌊r * (300 : ℕ) / ([50, 15, 20, 15] : List ℚ).sum⌋).toNat) :=
  C3_amended_thm [50, 15, 20, 15] 300 rfl (by norm_num) (by norm_num)

/-- Claim C4 counterexample: with bucket bounds [1, 3] and a candidate of
Euclidean distance 1, a NaN geodesic distance is accepted by the
rejection-sampling loop (all three while-comparisons are false on NaN),
yet the accepted distance does not satisfy min_d ≤ d under float
comparison — an accepted leg violating the claimed conditions. -/
theorem C4_counterexample :
    retryLoop [((0, 1), 1)] geoWithNan 1 3 [0] = some (((0, 1), 1, FVal.nan), []) ∧
    fle (FVal.finite 1) FVal.nan = false := by
  constructor
  · norm_num [retryLoop, rejects, flt, fdiv, minDistRatio, geoWithNan]
  · rfl

/-- Claim C4 amended: every leg accepted by either rejection-sampling loop
(first leg or chained) has a geodesic distance that is either NaN or a
finite value d with min_d ≤ d ≤ max_d and d / euc_d ≥ MIN_DIST_RATIO; in
particular no ±infinite, negative, or out-of-range finite distance is
ever accepted — but NaN is accepted. -/
theorem C4_amended_thm (cands : List ((ℕ × ℕ) × ℚ)) (geo : ℕ → ℕ → FVal) (mn mx : ℚ) :
    (∀ (draws : List ℕ) (p : ℕ × ℕ) (e : ℚ) (d : FVal) (rest : List ℕ),
      retryLoop cands geo mn mx draws = some ((p, e, d), rest) →
      d = FVal.nan ∨ ∃ q, d = FVal.finite q ∧ mn ≤ q ∧ q ≤ mx ∧ minDistRatio ≤ q / e) ∧
    (∀ (last : ℕ) (draws : List ℕ) (j : ℕ) (e : ℚ) (d : FVal) (rest : List ℕ),
      chainRetry (nxtCandidates cands last) geo last mn mx draws = some ((j, e, d), rest) →
      d = FVal.nan ∨ ∃ q, d = FVal.finite q ∧ mn ≤ q ∧ q ≤ mx ∧ minDistRatio ≤ q / e) := by
  constructor
  · intro draws p e d rest h
    exact accept_char d e mn mx (retryLoop_spec cands geo mn mx draws p e d rest h).2.2
  · intro last draws j e d rest h
    exact accept_char d e mn mx (chainRetry_spec _ geo last mn mx draws j e d rest h).2.2

/-- Witness for C4_amended_thm at a concrete accepted leg. -/
theorem C4_witness :
    FVal.finite 2 = FVal.nan ∨
      ∃ q, FVal.finite 2 = FVal.finite q ∧ (1 : ℚ) ≤ q ∧ q ≤ 3 ∧ minDistRatio ≤ q / 1 :=
  (C4_amended_thm [((0, 1), 1)] (fun _ _ => FVal.finite 2) 1 3).1 [0] (0, 1) 1
    (FVal.finite 2) []
    (by norm_num [retryLoop, rejects, flt, fdiv, minDistRatio])

/-- Claim C5: in every generated episode the accepted legs are chained:
each subsequent leg's source index equals the previous leg's destination
index (so its start point nav_pts[...] is the previous destination point),
and every subsequent leg comes from a candidate pair containing that index
as one of its two endpoints, in either stored orientation. -/
theorem C5_chaining (cands : List ((ℕ × ℕ) × ℚ)) (geo : ℕ → ℕ → FVal)
    (mn mx : ℚ) (m : ℕ) (draws : List ℕ) (st : EpState) (rest : List ℕ)
    (h : genEpisode cands geo mn mx m draws = some (st, rest)) :
    List.Chain' (fun a b : ℕ × ℕ => b.1 = a.2) st.legs ∧
    ∀ leg ∈ st.legs.tail, FromCands cands leg := by
  obtain ⟨⟨-, -, hchain, htail⟩, -, -⟩ := genEpisode_good cands geo mn mx m draws st rest h
  exact ⟨hchain, htail⟩

/-- Witness for C5_chaining at a concrete 3-goal episode. -/
theorem C5_witness :
    List.Chain' (fun a b : ℕ × ℕ => b.1 = a.2) ([(0, 1), (1, 2), (2, 3)] : List (ℕ × ℕ)) ∧
    ∀ leg ∈ ([(0, 1), (1, 2), (2, 3)] : List (ℕ × ℕ)).tail,
      FromCands [((0, 1), 1), ((1, 2), 1), ((2, 3), 1)] leg :=
  C5_chaining [((0, 1), 1), ((1, 2), 1), ((2, 3), 1)] (fun _ _ => FVal.finite 2) 1 3 3
    [0, 0, 0] ⟨2, 3, [1, 2, 3], FVal.finite 6, [(0, 1), (1, 2), (2, 3)]⟩ []
    (by norm_num [genEpisode, retryLoop, chainSteps, chainRetry, nxtCandidates, rejects,
      flt, fdiv, fadd, minDistRatio])

/-- Claim C6: the spec requires non-finite (including NaN) or negative
geodesic distances to be rejected and redrawn inside the retry loop.  The
code's while-condition does reject +infinity and negative values and
redraws without crashing (first two conjuncts), but all three comparisons
are false for NaN, so a NaN geodesic distance is accepted as a leg (third
conjunct) — contradicting the claim for NaN. -/
theorem C6_eval :
    retryLoop candsTwo geoWithInf 1 3 [0, 1] = some (((2, 3), 1, FVal.finite 2), []) ∧
    retryLoop candsTwo geoWithNeg 1 3 [0, 1] = some (((2, 3), 1, FVal.finite 2), []) ∧
    retryLoop candsTwo geoWithNan 1 3 [0, 1] = some (((0, 1), 1, FVal.nan), [1]) := by
  refine ⟨?_, ?_, ?_⟩ <;>
    norm_num [retryLoop, rejects, flt, fdiv, minDistRatio, candsTwo, geoWithInf,
      geoWithNeg, geoWithNan]

/-- Claim C7 counterexample: the list (0, 0, 0, 0) has exactly 4
non-negative ratios, yet parsing does not return normally: the sum is
zero, so computing int(r * n / tot) raises ZeroDivisionError (float
division by zero) — and that failure is not the invalid-configuration
error, refuting both directions of the claimed equivalence. -/
theorem C7_counterexample :
    parse_difficulty_ratios [0, 0, 0, 0] 300 = Except.error "float division by zero" ∧
    ([0, 0, 0, 0] : List ℚ).length = 4 ∧
    ([0, 0, 0, 0] : List ℚ).all (fun r => decide (0 ≤ r)) = true ∧
    parse_difficulty_ratios [0, 0, 0, 0] 300 ≠ Except.error "Invalid difficulty ratios argument" := by
  refine ⟨?_, rfl, by norm_num, ?_⟩
  · norm_num [parse_difficulty_ratios]
  · norm_num [parse_difficulty_ratios]
    decide

/-- Claim C7 amended: parsing raises the invalid-configuration ValueError
exactly when the list has other than 4 ratios or a negative ratio; it
returns normally exactly for lists of 4 non-negative ratios with positive
sum (an all-zero list instead raises ZeroDivisionError); and any parse
failure propagates out of main before any simulator work is performed. -/
theorem C7_amended_thm (ratios : List ℚ) (n : ℕ) :
    (parse_difficulty_ratios ratios n = Except.error "Invalid difficulty ratios argument" ↔
      ratios.length ≠ 4 ∨ ∃ r ∈ ratios, r < 0) ∧
    ((∃ l, parse_difficulty_ratios ratios n = Except.ok l) ↔
      ratios.length = 4 ∧ (∀ r ∈ ratios, 0 ≤ r) ∧ ratios.sum ≠ 0) ∧
    (∀ (e : String), parse_difficulty_ratios ratios n = Except.error e →
      ∀ (α : Type) (simWork₁ simWork₂ : List (String × ℕ × ℚ × ℚ) → α),
        mainModel ratios n simWork₁ = mainModel ratios n simWork₂) := by
  refine ⟨parse_invalid_iff ratios n, parse_ok_iff ratios n, ?_⟩
  intro e he α simWork₁ simWork₂
  unfold mainModel
  rw [he]

/-- Witness for C7_amended_thm at the concrete all-zero ratio list. -/
theorem C7_witness :
    ∀ (e : String), parse_difficulty_ratios [0, 0, 0, 0] 10 = Except.error e →
      mainModel [0, 0, 0, 0] 10 (fun _ => (0 : ℕ)) = mainModel [0, 0, 0, 0] 10 (fun l => l.length) :=
  fun e he => (C7_amended_thm [0, 0, 0, 0] 10).2.2 e he ℕ (fun _ => 0) (fun l => l.length)

/-- Claim C8 counterexample: with goals-per-episode configured to 0 the
generated episode still contains exactly 1 goal (the first leg is drawn
unconditionally and Python's range(-1) is empty), so the goal count does
not equal the configured value for every configured value. -/
theorem C8_counterexample :
    (genEpisode [((0, 1), 1)] (fun _ _ => FVal.finite 2) 1 3 0 [0]).map
        (fun x => x.1.dests.length) = some 1 ∧ (1 : ℕ) ≠ 0 := by
  constructor
  · norm_num [genEpisode, retryLoop, chainSteps, rejects, flt, fdiv, minDistRatio]
  · decide

/-- Claim C8 amended: for every configured goals-per-episode m ≥ 1, every
generated episode has exactly m goals (1 from the first leg plus m - 1
from the chained-leg loop). -/
theorem C8_amended_thm (cands : List ((ℕ × ℕ) × ℚ)) (geo : ℕ → ℕ → FVal)
    (mn mx : ℚ) (m : ℕ) (draws : List ℕ) (st : EpState) (rest : List ℕ)
    (hm : 1 ≤ m) (h : genEpisode cands geo mn mx m draws = some (st, rest)) :
    st.dests.length = m := by
  obtain ⟨-, -, hd⟩ := genEpisode_good cands geo mn mx m draws st rest h
  omega

/-- Witness for C8_amended_thm at a concrete 2-goal episode. -/
theorem C8_witness : (([1, 2] : List ℕ).length = 2) :=
  C8_amended_thm [((0, 1), 1), ((1, 2), 1)] (fun _ _ => FVal.finite 2) 1 3 2 [0, 0]
    ⟨1, 2, [1, 2], FVal.finite 4, [(0, 1), (1, 2)]⟩ [] (by norm_num)
    (by norm_num [genEpisode, retryLoop, chainSteps, chainRetry, nxtCandidates, rejects,
      flt, fdiv, fadd, minDistRatio])

/-- Claim C9: the per-bucket candidate list contains exactly the unordered
index pairs of the global pair list whose Euclidean distance e satisfies
0.8 * min_d ≤ e ≤ 1.2 * max_d, both bounds inclusive, paired with that
distance; and every rejection-sampling draw for the bucket — first-leg
draws directly, chained draws through nxt_candidates — comes from this
filtered list. -/
theorem C9_prefilter_thm (n : ℕ) (euc : ℕ × ℕ → ℚ) (mn mx : ℚ) :
    (∀ (p : ℕ × ℕ) (e : ℚ),
      (p, e) ∈ candidatesFor n euc mn mx ↔
        p ∈ pairsList n ∧ e = euc p ∧ 8 / 10 * mn ≤ e ∧ e ≤ 12 / 10 * mx) ∧
    (∀ (geo : ℕ → ℕ → FVal) (draws : List ℕ) (p : ℕ × ℕ) (e : ℚ) (d : FVal) (rest : List ℕ),
      retryLoop (candidatesFor n euc mn mx) geo mn mx draws = some ((p, e, d), rest) →
      (p, e) ∈ candidatesFor n euc mn mx) ∧
    (∀ (last j : ℕ) (e : ℚ), (j, e) ∈ nxtCandidates (candidatesFor n euc mn mx) last →
      ((last, j), e) ∈ candidatesFor n euc mn mx ∨
        ((j, last), e) ∈ candidatesFor n euc mn mx) := by
  refine ⟨candidatesFor_mem n euc mn mx, ?_, ?_⟩
  · intro geo draws p e d rest h
    exact (retryLoop_spec _ geo mn mx draws p e d rest h).1
  · intro last j e h
    exact nxtCandidates_mem _ last j e h

/-- Witness for C9_prefilter_thm at a concrete pair and bucket. -/
theorem C9_witness :
    ((0, 1), (1 : ℚ)) ∈ candidatesFor 3 (fun _ => (1 : ℚ)) 1 3 :=
  ((C9_prefilter_thm 3 (fun _ => (1 : ℚ)) 1 3).1 (0, 1) 1).mpr
    ⟨by decide, rfl, by norm_num, by norm_num⟩

/-- Claim C10: for goals-per-episode m ≥ 2, the start position handed to
episode assembly is the point the src variable holds after the last
chained iteration — the source of the final leg, which is the goal
preceding the last one — because each chained iteration overwrites src
with nav_pts[last]; the episode has m goals and its src index is the
destination index stored at position m - 2 of the goal list, equivalently
the first component of the final leg. -/
theorem C10_src_final (cands : List ((ℕ × ℕ) × ℚ)) (geo : ℕ → ℕ → FVal)
    (mn mx : ℚ) (m : ℕ) (draws : List ℕ) (st : EpState) (rest : List ℕ)
    (hm : 2 ≤ m) (h : genEpisode cands geo mn mx m draws = some (st, rest)) :
    st.dests.length = m ∧
    st.dests.get? (m - 2) = some st.src ∧
    (st.legs.getLast?).map Prod.fst = some st.src := by
  obtain ⟨⟨hdests, hlast, hchain, -⟩, hllen, hdlen⟩ :=
    genEpisode_good cands geo mn mx m draws st rest h
  have hlen : st.legs.length = m := by omega
  have hry : st.dests.length = m := by omega
  refine ⟨hry, ?_, by rw [hlast]; rfl⟩
  have hm1 : m - 1 < st.legs.length := by omega
  have hm2 : m - 2 < st.legs.length := by omega
  have hget1 : st.legs.get ⟨m - 1, hm1⟩ = (st.src, st.last) := by
    have := List.getLast?_eq_get? st.legs
    rw [hlast] at this
    have h2 : st.legs.get? (st.legs.length - 1) = some (st.src, st.last) := this.symm
    rw [hlen] at h2
    rw [List.get?_eq_get hm1] at h2
    exact Option.some.inj h2
  have hadj : (st.legs.get ⟨m - 2 + 1, by omega⟩).1 = (st.legs.get ⟨m - 2, hm2⟩).2 := by
    rw [List.chain'_iff_get] at hchain
    exact hchain (m - 2) (by omega)
  have hidx : st.legs.get ⟨m - 2 + 1, by omega⟩ = st.legs.get ⟨m - 1, hm1⟩ := by
    congr 1
    exact Fin.ext (show m - 2 + 1 = m - 1 by omega)
  have hsrc : st.src = (st.legs.get ⟨m - 2, hm2⟩).2 := by
    rw [hidx, hget1] at hadj
    exact hadj
  rw [hdests, List.get?_map, List.get?_eq_get hm2, hsrc]
  rfl

/-- Witness for C10_src_final at a concrete 2-goal episode: the assembled
start is goal 1 (index 1), not the first leg's source (index 0). -/
theorem C10_witness :
    (([1, 2] : List ℕ).length = 2 ∧
      ([1, 2] : List ℕ).get? 0 = some 1 ∧
      (([(0, 1), (1, 2)] : List (ℕ × ℕ)).getLast?).map Prod.fst = some 1) ∧
    (1 : ℕ) ≠ 0 :=
  ⟨C10_src_final [((0, 1), 1), ((1, 2), 1)] (fun _ _ => FVal.finite 2) 1 3 2 [0, 0]
      ⟨1, 2, [1, 2], FVal.finite 4, [(0, 1), (1, 2)]⟩ [] (by norm_num)
      (by norm_num [genEpisode, retryLoop, chainSteps, chainRetry, nxtCandidates, rejects,
        flt, fdiv, fadd, minDistRatio]),
    by decide⟩

end MultigoalGen
